import Mathlib

set_option allowUnsafeReducibility true
attribute [local semireducible] Rat.sub Rat.add Rat.mul Rat.div Rat.inv

/-!
Shallow embedding of the hacks11-voyix inventory core.

Quantities (SQL numerics / Python floats used for exact bookkeeping) are
modelled as rationals; calendar dates as natural numbers (days, or
YYYYMMDD-style codes: only their order matters); a nullable SQL date as
`Option Nat`.

Sources embedded here:
* `backend/app/models/batch.py`     — batch ledger (`create_batch`,
  `fifo_deduct`, `mark_expired`);
* `backend/app/models/inventory.py` — daily reconciliation log
  (`upsert_usage`), plus its service-layer validation
  (`inventory_service.log_usage`);
* `ml/src/restaurant_restock_system.py` — the restock decision engine
  (`classify_ingredient`, `calculate_days_until_stockout`,
  `determine_priority`, and the recommendation-building slice of
  `generate_restock_recommendations`).
-/

/-- Status of an ingredient batch (`ingredient_batches.status`). -/
inductive BatchStatus
  | active
  | depleted
  | expired
deriving DecidableEq

/-- A row of `ingredient_batches` (columns used by the ledger operations). -/
structure Batch where
  batch_id : Nat
  restaurant_id : Nat
  ingredient_id : Nat
  qty_received : ℚ
  qty_remaining : ℚ
  received_date : Nat
  expiration_date : Option Nat
  status : BatchStatus
deriving DecidableEq

/-- One element of `fifo_deduct`'s `affected` list: the RETURNING row of the
UPDATE (`batch_id, qty_remaining, status`) plus the `qty_deducted` field the
code attaches to it. -/
structure AffectedRow where
  batch_id : Nat
  qty_remaining : ℚ
  status : BatchStatus
  qty_deducted : ℚ
deriving DecidableEq

/-- The dictionary returned by `fifo_deduct`. -/
structure FifoResult where
  affected_batches : List AffectedRow
  total_deducted : ℚ
  shortfall : ℚ
deriving DecidableEq

/-- Default row used with `List.getD` when indexing affected lists. -/
def dRow : AffectedRow := ⟨0, 0, BatchStatus.active, 0⟩

/-- Default batch used with `List.getD` when indexing batch lists. -/
def dBatch : Batch := ⟨0, 0, 0, 0, 0, 0, none, BatchStatus.active⟩

/-- Sort rank of a nullable expiration date: `NULLS LAST`. -/
def expRank (b : Batch) : Nat :=
  match b.expiration_date with
  | none => 1
  | some _ => 0

/-- Value used to compare two non-null expiration dates (irrelevant for null
ones, which are separated by `expRank`). -/
def expVal (b : Batch) : Nat := b.expiration_date.getD 0

/-- The SQL ordering `ORDER BY expiration_date ASC NULLS LAST,
received_date ASC` as a total preorder on batches. -/
def fifoR (a b : Batch) : Prop :=
  expRank a < expRank b ∨
    (expRank a = expRank b ∧
      (expVal a < expVal b ∨
        (expVal a = expVal b ∧ a.received_date ≤ b.received_date)))

instance : DecidableRel fifoR := fun a b => by
  unfold fifoR; infer_instance

instance : IsTotal Batch fifoR := by
  constructor
  intro a b
  unfold fifoR
  omega

instance : IsTrans Batch fifoR := by
  constructor
  intro a b c hab hbc
  unfold fifoR at *
  omega

/-- Does this batch belong to the `WHERE` clause of `fifo_deduct`'s
`SELECT ... FOR UPDATE` (restaurant, ingredient, status = 'active')? -/
def activeKey (rid iid : Nat) (b : Batch) : Bool :=
  b.restaurant_id == rid && b.ingredient_id == iid && b.status == BatchStatus.active

/-- The locked row set of `fifo_deduct`, in FIFO order. -/
def selectFifo (ledger : List Batch) (rid iid : Nat) : List Batch :=
  List.insertionSort fifoR (ledger.filter (activeKey rid iid))

/-- Python's `min` on exact quantities, written executably. -/
def qmin (a b : ℚ) : ℚ := if a ≤ b then a else b

/-- Python's `max` on exact quantities, written executably. -/
def qmax (a b : ℚ) : ℚ := if a ≤ b then b else a

/-- The `for batch in batches:` loop of `fifo_deduct`: walks the ordered
batches, breaking once `remaining <= 0`; returns the accumulated `affected`
rows and the final `remaining`. -/
def walkDeduct : List Batch → ℚ → List AffectedRow × ℚ
  | [], q => ([], q)
  | b :: rest, q =>
    if q ≤ 0 then ([], q)
    else
      let available := b.qty_remaining
      let deducted := qmin available q
      let newQty := available - deducted
      let newStatus := if newQty ≤ 0 then BatchStatus.depleted else BatchStatus.active
      let next := walkDeduct rest (q - deducted)
      (⟨b.batch_id, qmax newQty 0, newStatus, deducted⟩ :: next.1, next.2)

/-- Apply the `UPDATE ingredient_batches SET qty_remaining = %s, status = %s
WHERE batch_id = %s` rows to one table row: the first affected row carrying
this batch's primary key (unique in the table) wins. -/
def applyRow (rows : List AffectedRow) (b : Batch) : Batch :=
  match rows.find? (fun r => r.batch_id == b.batch_id) with
  | some r => { b with qty_remaining := r.qty_remaining, status := r.status }
  | none => b

/-- Apply every UPDATE issued by the loop to the table. -/
def applyRows (ledger : List Batch) (rows : List AffectedRow) : List Batch :=
  ledger.map (applyRow rows)

/-- `fifo_deduct(restaurant_id, ingredient_id, qty_to_deduct)`: returns the
result dictionary and the table after the transaction commits. -/
def fifoDeduct (ledger : List Batch) (rid iid : Nat) (q : ℚ) :
    FifoResult × List Batch :=
  let w := walkDeduct (selectFifo ledger rid iid) q
  (⟨w.1, q - qmax w.2 0, qmax w.2 0⟩, applyRows ledger w.1)

/-- `expiration_date < CURRENT_DATE` under SQL semantics: false when the
expiration date is NULL. -/
def expiredBefore (e : Option Nat) (today : Nat) : Bool :=
  match e with
  | none => false
  | some d => decide (d < today)

/-- Effect of `mark_expired`'s UPDATE on one table row. -/
def sweepOne (rid today : Nat) (b : Batch) : Batch :=
  if b.restaurant_id == rid && b.status == BatchStatus.active
      && expiredBefore b.expiration_date today
  then { b with status := BatchStatus.expired }
  else b

/-- `mark_expired(restaurant_id)` applied to the whole table. -/
def sweepExpired (ledger : List Batch) (rid today : Nat) : List Batch :=
  ledger.map (sweepOne rid today)

/-- The batch created by `create_batch`: `qty_remaining` starts equal to
`qty_received`, status is the column default `'active'`. -/
def createBatch (bid rid iid : Nat) (qty : ℚ) (rcv : Nat) (expd : Option Nat) : Batch :=
  ⟨bid, rid, iid, qty, qty, rcv, expd, BatchStatus.active⟩

/-- Ledger operations a caller can run against `ingredient_batches`. -/
inductive LedgerOp
  | receive (rid iid : Nat) (qty : ℚ) (rcv : Nat) (expd : Option Nat)
  | consume (rid iid : Nat) (qty : ℚ)
  | sweep (rid today : Nat)

/-- Table state plus bookkeeping: `nextId` models the SERIAL primary key,
`deductedTot` accumulates the `total_deducted` figures returned by
consumption calls, per (restaurant, ingredient). -/
structure LedgerSt where
  ledger : List Batch
  nextId : Nat
  deductedTot : Nat → Nat → ℚ

def initSt : LedgerSt := ⟨[], 0, fun _ _ => 0⟩

def stepOp (st : LedgerSt) : LedgerOp → LedgerSt
  | .receive rid iid q rcv expd =>
      ⟨st.ledger ++ [createBatch st.nextId rid iid q rcv expd], st.nextId + 1,
        st.deductedTot⟩
  | .consume rid iid q =>
      let w := fifoDeduct st.ledger rid iid q
      ⟨w.2, st.nextId,
        fun r i =>
          if r = rid ∧ i = iid then st.deductedTot r i + w.1.total_deducted
          else st.deductedTot r i⟩
  | .sweep rid today => ⟨sweepExpired st.ledger rid today, st.nextId, st.deductedTot⟩

def runOps (ops : List LedgerOp) : LedgerSt := ops.foldl stepOp initSt

/-- All quantities supplied to receive/consume calls are positive, as the
route / service validation demands. -/
def opPos : LedgerOp → Prop
  | .receive _ _ q _ _ => 0 < q
  | .consume _ _ q => 0 < q
  | .sweep _ _ => True

instance : DecidablePred opPos := fun op => by
  cases op <;> (unfold opPos; infer_instance)

/-- Does this batch belong to the given (restaurant, ingredient) pair? -/
def keyMatch (rid iid : Nat) (b : Batch) : Bool :=
  b.restaurant_id == rid && b.ingredient_id == iid

/-- `Σ qty_remaining` across the ingredient's batches. -/
def sumRemaining (ledger : List Batch) (rid iid : Nat) : ℚ :=
  ((ledger.filter (keyMatch rid iid)).map (·.qty_remaining)).sum

/-- `Σ qty_received` across the ingredient's batches. -/
def sumReceived (ledger : List Batch) (rid iid : Nat) : ℚ :=
  ((ledger.filter (keyMatch rid iid)).map (·.qty_received)).sum

/-- Sum of the deductions recorded on an affected list. -/
def sumDed (rows : List AffectedRow) : ℚ := (rows.map (·.qty_deducted)).sum

/-- The ledger invariant maintained across operations: primary keys are
below the SERIAL counter and unique, every batch satisfies
`0 ≤ qty_remaining ≤ qty_received`, and per (restaurant, ingredient) the
remaining stock equals total received minus total deducted. -/
def GoodSt (st : LedgerSt) : Prop :=
  (∀ b ∈ st.ledger, b.batch_id < st.nextId) ∧
  (st.ledger.map (·.batch_id)).Nodup ∧
  (∀ b ∈ st.ledger, 0 ≤ b.qty_remaining ∧ b.qty_remaining ≤ b.qty_received) ∧
  (∀ rid iid, sumRemaining st.ledger rid iid =
    sumReceived st.ledger rid iid - st.deductedTot rid iid)

/-! ## Daily reconciliation log (`inventory.py`) -/

/-- A row of `daily_inventory_log` (columns touched by `upsert_usage`). -/
structure LogRow where
  rid : Nat
  iid : Nat
  day : Nat
  inventory_start : ℚ
  qty_used : ℚ
  inventory_end : ℚ
deriving DecidableEq

/-- Key of the table's unique constraint `(restaurant_id, ingredient_id,
log_date)`. -/
def logKey (rid iid day : Nat) (r : LogRow) : Bool :=
  r.rid == rid && r.iid == iid && r.day == day

/-- Does the log already hold today's row for this key (the `ON CONFLICT`
target)? -/
def findToday (log : List LogRow) (rid iid day : Nat) : Option LogRow :=
  log.find? (logKey rid iid day)

/-- Keep whichever row has the later `log_date` (`ORDER BY log_date DESC
LIMIT 1` evaluated as a running maximum). -/
def pickLater (acc : Option LogRow) (r : LogRow) : Option LogRow :=
  match acc with
  | none => some r
  | some m => if m.day < r.day then some r else some m

/-- The correlated subquery `SELECT inventory_end ... WHERE log_date <
CURRENT_DATE ORDER BY log_date DESC LIMIT 1`: the key's row with the
greatest day strictly before `today`. -/
def latestPrior (log : List LogRow) (rid iid today : Nat) : Option LogRow :=
  (log.filter (fun r => r.rid == rid && r.iid == iid && decide (r.day < today))).foldl
    pickLater none

/-- `COALESCE((...), 0)` around the subquery above. -/
def priorEnd (log : List LogRow) (rid iid today : Nat) : ℚ :=
  match latestPrior log rid iid today with
  | some m => m.inventory_end
  | none => 0

/-- `upsert_usage(restaurant_id, ingredient_id, qty_used)` run on day
`today`: returns the RETURNING row and the table afterwards.  The INSERT
seeds `inventory_start` from the most recent prior day's `inventory_end`
(0 if none) and sets `inventory_end = inventory_start - qty`; the conflict
branch accumulates `qty_used` and decrements `inventory_end`. -/
def upsertUsage (log : List LogRow) (rid iid today : Nat) (qty : ℚ) :
    LogRow × List LogRow :=
  match findToday log rid iid today with
  | some r =>
      let r' : LogRow :=
        { r with qty_used := r.qty_used + qty, inventory_end := r.inventory_end - qty }
      (r', log.map (fun x => if logKey rid iid today x then
          { x with qty_used := x.qty_used + qty, inventory_end := x.inventory_end - qty }
        else x))
  | none =>
      let s := priorEnd log rid iid today
      let row : LogRow := ⟨rid, iid, today, s, qty, s - qty⟩
      (row, log ++ [row])

/-- Service-layer validation `inventory_service.log_usage`: rejects a
non-positive quantity before any write happens. -/
def logUsage (log : List LogRow) (rid iid today : Nat) (qty : ℚ) :
    Except String (LogRow × List LogRow) :=
  if qty ≤ 0 then Except.error "qty_used must be a positive number"
  else Except.ok (upsertUsage log rid iid today qty)

/-! ## Restock decision engine (`restaurant_restock_system.py`) -/

/-- `IngredientCategory`. -/
inductive IngredientCategory
  | PRODUCE
  | PROTEIN
  | DAIRY
  | NON_PERISHABLE
  | ALCOHOL_DRY
deriving DecidableEq

/-- The priority strings returned by `determine_priority`. -/
inductive Priority
  | LOW
  | MEDIUM
  | HIGH
  | CRITICAL
deriving DecidableEq

/-- Severity scale LOW < MEDIUM < HIGH < CRITICAL. -/
def severity : Priority → Nat
  | .LOW => 0
  | .MEDIUM => 1
  | .HIGH => 2
  | .CRITICAL => 3

/-- `days_until_stockout` may be `float('inf')` (`none` here); a finite
value is a rational. `optLt d c` is the Python comparison `d < c`. -/
def optLt : Option ℚ → ℚ → Bool
  | none, _ => false
  | some x, c => decide (x < c)

/-- Order on stockout horizons: `none` is the infinite horizon, above every
finite one. -/
def optLe : Option ℚ → Option ℚ → Prop
  | _, none => True
  | none, some _ => False
  | some x, some y => x ≤ y

instance : ∀ a b, Decidable (optLe a b) := fun a b => by
  cases a <;> cases b <;> (unfold optLe; infer_instance)

/-- `calculate_days_until_stockout`. -/
def calcDaysUntilStockout (currentInventory avgDailyUsage : ℚ) : Option ℚ :=
  if avgDailyUsage ≤ 0 then none
  else some (qmax 0 (currentInventory / avgDailyUsage))

/-- `determine_priority(days_until_stockout, days_until_spoilage,
restock_needed, category)`. -/
def determinePriority (stockout : Option ℚ) (spoilage : ℚ) (restock : Bool)
    (cat : IngredientCategory) : Priority :=
  if (!restock && decide (3 < spoilage)) = true then .LOW
  else if (decide (spoilage < 1) || optLt stockout 1) = true then .CRITICAL
  else
    match cat with
    | .PRODUCE | .PROTEIN =>
      if (optLt stockout 3 || decide (spoilage < 2)) = true then .HIGH
      else if (optLt stockout 5 || restock) = true then .MEDIUM
      else .LOW
    | .DAIRY =>
      if (optLt stockout 5 || decide (spoilage < 3)) = true then .HIGH
      else if (optLt stockout 7 || restock) = true then .MEDIUM
      else .LOW
    | .NON_PERISHABLE | .ALCOHOL_DRY =>
      if optLt stockout 7 = true then .HIGH
      else if (optLt stockout 14 || restock) = true then .MEDIUM
      else .LOW

/-- The static fields of `CategoryMetadata` used in recommendations. -/
structure CatMeta where
  shelf_life_days : ℚ
  delivery_frequency_days : ℚ
  order_lead_time_days : ℚ
  waste_buffer_days : ℚ

/-- `CATEGORY_METADATA`. -/
def categoryMetadata : IngredientCategory → CatMeta
  | .PRODUCE => ⟨5, 2, 1, 2⟩
  | .PROTEIN => ⟨4, 2, 1, 2⟩
  | .DAIRY => ⟨10, 7, 2, 3⟩
  | .NON_PERISHABLE => ⟨90, 14, 3, 0⟩
  | .ALCOHOL_DRY => ⟨365, 30, 5, 0⟩

/-- The derived fields of one `RestockRecommendation`. -/
structure RecOut where
  category : IngredientCategory
  reorder_point : ℚ
  target_stock_level : ℚ
  days_until_spoilage : ℚ
  restock_needed : Bool
  suggested_order_qty : ℚ
  days_until_stockout : Option ℚ
  waste_risk : Bool
  priority : Priority

/-- The per-ingredient body of `generate_restock_recommendations`, from the
classified category and the numeric features (`current_inventory`,
`avg_daily_usage`, the model's `predicted_end`).  `11/10` is the engine's
`safety_factor = 1.1`. -/
def mkRecommendation (currentInventory avgDailyUsage predictedEnd : ℚ)
    (cat : IngredientCategory) : RecOut :=
  let m := categoryMetadata cat
  let minStockDays := m.delivery_frequency_days + m.order_lead_time_days + m.waste_buffer_days
  let reorderPoint :=
    if 0 < avgDailyUsage then avgDailyUsage * minStockDays
    else currentInventory * (3 / 10)
  let targetStockDays := m.delivery_frequency_days * 2 + m.order_lead_time_days
  let targetStock :=
    if 0 < avgDailyUsage then avgDailyUsage * targetStockDays
    else currentInventory * (3 / 2)
  let spoilage := m.shelf_life_days - m.waste_buffer_days
  let restockNeeded :=
    decide (predictedEnd < reorderPoint) || decide (spoilage < m.waste_buffer_days + 1)
  let suggested :=
    if restockNeeded = true then
      let shortfall :=
        if cat = .PRODUCE ∨ cat = .PROTEIN then
          (if 0 < avgDailyUsage then
            avgDailyUsage * (m.delivery_frequency_days + m.order_lead_time_days)
          else targetStock * (1 / 2)) - predictedEnd
        else targetStock - predictedEnd
      qmax 0 (shortfall * (11 / 10))
    else 0
  let stockout := calcDaysUntilStockout predictedEnd avgDailyUsage
  let wasteRisk := decide (spoilage < 3) && decide (avgDailyUsage * 2 < currentInventory)
  ⟨cat, reorderPoint, targetStock, spoilage, restockNeeded, suggested, stockout,
    wasteRisk, determinePriority stockout spoilage restockNeeded cat⟩

/-! ## Ingredient classification (`classify_ingredient`) -/

/-- Does `hay` start with `needle`? -/
def startsWithChars : List Char → List Char → Bool
  | _, [] => true
  | [], _ :: _ => false
  | c :: cs, d :: ds => c == d && startsWithChars cs ds

/-- Python's substring test `needle in hay`. -/
def hasSubstr : List Char → List Char → Bool
  | [], needle => needle.isEmpty
  | c :: t, needle => startsWithChars (c :: t) needle || hasSubstr t needle

/-- `ingredient_name.lower()`. -/
def normalizeName (s : String) : List Char := s.toList.map Char.toLower

/-- `any(keyword in name_lower for keyword in kws)`. -/
def anyKeyword (kws : List String) (n : List Char) : Bool :=
  kws.any (fun k => hasSubstr n k.toList)

def produceKeywords : List String :=
  ["lettuce", "tomato", "onion", "bell", "pepper", "cucumber", "carrot",
   "spinach", "arugula", "romaine", "basil", "cilantro", "parsley", "herb",
   "mushroom", "avocado", "lime", "lemon", "potato", "celery"]

def proteinKeywords : List String :=
  ["chicken", "beef", "pork", "fish", "salmon", "tuna", "shrimp",
   "turkey", "duck", "lamb", "bacon", "sausage", "ham", "meat"]

def dairyKeywords : List String :=
  ["cheese", "milk", "cream", "butter", "yogurt", "mozzarella",
   "cheddar", "parmesan", "swiss", "goat", "feta", "ricotta"]

def nonPerishableKeywords : List String :=
  ["rice", "pasta", "flour", "sugar", "salt", "oil", "vinegar",
   "sauce", "dressing", "spice", "seasoning", "bread", "bun",
   "crouton", "noodle", "grain"]

def alcoholDryKeywords : List String :=
  ["wine", "beer", "vodka", "whiskey", "rum", "gin", "liquor",
   "alcohol", "spirit", "cocktail", "mix"]

/-- `classify_ingredient`, with the branch order of the source: produce,
protein, dairy, alcohol/dry, non-perishable, default non-perishable. -/
def classifyIngredient (name : String) : IngredientCategory :=
  let n := normalizeName name
  if anyKeyword produceKeywords n then .PRODUCE
  else if anyKeyword proteinKeywords n then .PROTEIN
  else if anyKeyword dairyKeywords n then .DAIRY
  else if anyKeyword alcoholDryKeywords n then .ALCOHOL_DRY
  else if anyKeyword nonPerishableKeywords n then .NON_PERISHABLE
  else .NON_PERISHABLE

/-- First-match-wins classification over an explicit ordered list of
keyword sets, defaulting to non-perishable.  Instantiated with
`codeKeywordOrder` it is the source's order; with `claimKeywordOrder` it is
the order the specification text states. -/
def classifyByOrder : List (List String × IngredientCategory) → List Char → IngredientCategory
  | [], _ => .NON_PERISHABLE
  | (kws, cat) :: rest, n =>
    if anyKeyword kws n then cat else classifyByOrder rest n

/-- The priority order actually used by `classify_ingredient`. -/
def codeKeywordOrder : List (List String × IngredientCategory) :=
  [(produceKeywords, .PRODUCE), (proteinKeywords, .PROTEIN),
   (dairyKeywords, .DAIRY), (alcoholDryKeywords, .ALCOHOL_DRY),
   (nonPerishableKeywords, .NON_PERISHABLE)]

/-- The priority order as the specification words it: "produce, protein,
dairy, non-perishable, alcohol/dry-goods". -/
def claimKeywordOrder : List (List String × IngredientCategory) :=
  [(produceKeywords, .PRODUCE), (proteinKeywords, .PROTEIN),
   (dairyKeywords, .DAIRY), (nonPerishableKeywords, .NON_PERISHABLE),
   (alcoholDryKeywords, .ALCOHOL_DRY)]

/-! ## Lemmas about the FIFO walk -/

theorem qmin_eq (a b : ℚ) : qmin a b = min a b := (min_def a b).symm

theorem qmax_eq (a b : ℚ) : qmax a b = max a b := (max_def a b).symm

theorem walkDeduct_nonpos (bs : List Batch) (q : ℚ) (h : q ≤ 0) :
    walkDeduct bs q = ([], q) := by
  cases bs with
  | nil => rfl
  | cons b rest => simp [walkDeduct, h]

theorem walkDeduct_cons_pos (b : Batch) (rest : List Batch) (q : ℚ) (h : ¬q ≤ 0) :
    walkDeduct (b :: rest) q =
      (⟨b.batch_id, max (b.qty_remaining - min b.qty_remaining q) 0,
          (if b.qty_remaining - min b.qty_remaining q ≤ 0 then BatchStatus.depleted
           else BatchStatus.active),
          min b.qty_remaining q⟩ ::
        (walkDeduct rest (q - min b.qty_remaining q)).1,
        (walkDeduct rest (q - min b.qty_remaining q)).2) := by
  simp [walkDeduct, h, qmin_eq, qmax_eq]

theorem walk_rows_pos (bs : List Batch) (q : ℚ)
    (h : (walkDeduct bs q).1 ≠ []) : 0 < q := by
  by_contra hq
  rw [walkDeduct_nonpos bs q (by linarith [not_lt.mp hq])] at h
  exact h rfl

/-- The final `remaining` is the requested quantity minus the recorded
deductions. -/
theorem walk_rem_eq (bs : List Batch) : ∀ q : ℚ,
    (walkDeduct bs q).2 = q - sumDed (walkDeduct bs q).1 := by
  induction bs with
  | nil => intro q; simp [walkDeduct, sumDed]
  | cons b rest ih =>
    intro q
    by_cases hq : q ≤ 0
    · simp [walkDeduct_nonpos _ _ hq, sumDed]
    · rw [walkDeduct_cons_pos b rest q hq]
      simp only [sumDed, List.map_cons, List.sum_cons]
      have := ih (q - min b.qty_remaining q)
      simp only [sumDed] at this
      rw [this]; ring

/-- The walk never drives `remaining` below zero. -/
theorem walk_rem_nonneg (bs : List Batch) : ∀ q : ℚ, 0 ≤ q →
    0 ≤ (walkDeduct bs q).2 := by
  induction bs with
  | nil => intro q hq; simpa [walkDeduct] using hq
  | cons b rest ih =>
    intro q hq
    by_cases h : q ≤ 0
    · simpa [walkDeduct_nonpos _ _ h] using hq
    · rw [walkDeduct_cons_pos b rest q h]
      exact ih _ (by simp [sub_nonneg, min_le_right])

/-- Per-row facts: each affected row comes from a batch of the walked list,
with the recorded deduction bounded by that batch's remaining quantity and
the new remaining quantity equal to old minus deducted. -/
theorem walk_sources (bs : List Batch) : ∀ (q : ℚ) (r : AffectedRow),
    r ∈ (walkDeduct bs q).1 →
    ∃ b ∈ bs, r.batch_id = b.batch_id ∧
      r.qty_deducted ≤ b.qty_remaining ∧
      r.qty_remaining = b.qty_remaining - r.qty_deducted ∧
      (0 ≤ b.qty_remaining → 0 ≤ r.qty_deducted) := by
  induction bs with
  | nil => intro q r hr; simp [walkDeduct] at hr
  | cons b rest ih =>
    intro q r hr
    by_cases hq : q ≤ 0
    · rw [walkDeduct_nonpos _ _ hq] at hr; simp at hr
    · rw [walkDeduct_cons_pos b rest q hq] at hr
      rcases List.mem_cons.mp hr with h0 | htail
      · refine ⟨b, List.mem_cons_self _ _, ?_⟩
        subst h0
        refine ⟨rfl, min_le_left _ _, ?_, ?_⟩
        · simp only
          rw [max_eq_left (by linarith [min_le_left b.qty_remaining q])]
        · intro hb
          simp only
          exact le_min hb (le_of_lt (lt_of_not_le hq))
      · obtain ⟨b', hb', hprops⟩ := ih _ r htail
        exact ⟨b', List.mem_cons_of_mem _ hb', hprops⟩

/-- The affected rows carry the primary keys of an initial segment of the
walked list, in order. -/
theorem walk_ids_eq (bs : List Batch) : ∀ q : ℚ,
    (walkDeduct bs q).1.map (·.batch_id) =
      (bs.take (walkDeduct bs q).1.length).map (·.batch_id) := by
  induction bs with
  | nil => intro q; simp [walkDeduct]
  | cons b rest ih =>
    intro q
    by_cases hq : q ≤ 0
    · simp [walkDeduct_nonpos _ _ hq]
    · rw [walkDeduct_cons_pos b rest q hq]
      simp only [List.map_cons, List.length_cons, List.take_succ_cons]
      rw [ih (q - min b.qty_remaining q)]

theorem walk_len_le (bs : List Batch) : ∀ q : ℚ,
    (walkDeduct bs q).1.length ≤ bs.length := by
  induction bs with
  | nil => intro q; simp [walkDeduct]
  | cons b rest ih =>
    intro q
    by_cases hq : q ≤ 0
    · simp [walkDeduct_nonpos _ _ hq]
    · rw [walkDeduct_cons_pos b rest q hq]
      simpa using ih (q - min b.qty_remaining q)

/-- Indexed id correspondence between affected rows and walked batches. -/
theorem walk_getD_id (bs : List Batch) : ∀ (q : ℚ) (i : Nat),
    i < (walkDeduct bs q).1.length →
    ((walkDeduct bs q).1.getD i dRow).batch_id = (bs.getD i dBatch).batch_id := by
  induction bs with
  | nil => intro q i hi; simp [walkDeduct] at hi
  | cons b rest ih =>
    intro q i hi
    by_cases hq : q ≤ 0
    · rw [walkDeduct_nonpos _ _ hq] at hi; simp at hi
    · rw [walkDeduct_cons_pos b rest q hq] at hi ⊢
      cases i with
      | zero => simp [List.getD]
      | succ j =>
        simp only [List.getD_cons_succ]
        exact ih _ j (by simpa using hi)

/-- Each recorded deduction is the minimum of the batch's remaining
quantity and the quantity still outstanding when the batch was reached. -/
theorem walk_getD_ded (bs : List Batch) : ∀ (q : ℚ) (i : Nat),
    i < (walkDeduct bs q).1.length →
    ((walkDeduct bs q).1.getD i dRow).qty_deducted =
      min ((bs.getD i dBatch).qty_remaining)
        (q - sumDed ((walkDeduct bs q).1.take i)) := by
  induction bs with
  | nil => intro q i hi; simp [walkDeduct] at hi
  | cons b rest ih =>
    intro q i hi
    by_cases hq : q ≤ 0
    · rw [walkDeduct_nonpos _ _ hq] at hi; simp at hi
    · rw [walkDeduct_cons_pos b rest q hq] at hi ⊢
      cases i with
      | zero => simp [List.getD, sumDed]
      | succ j =>
        simp only [List.getD_cons_succ, List.take_succ_cons]
        have := ih (q - min b.qty_remaining q) j (by simpa using hi)
        rw [this]
        congr 1
        simp only [sumDed, List.map_cons, List.sum_cons]
        ring

/-- Every affected row except possibly the last ends depleted at zero. -/
theorem walk_getD_depleted (bs : List Batch) : ∀ (q : ℚ) (i : Nat),
    i + 1 < (walkDeduct bs q).1.length →
    ((walkDeduct bs q).1.getD i dRow).qty_remaining = 0 ∧
      ((walkDeduct bs q).1.getD i dRow).status = BatchStatus.depleted := by
  induction bs with
  | nil => intro q i hi; simp [walkDeduct] at hi
  | cons b rest ih =>
    intro q i hi
    by_cases hq : q ≤ 0
    · rw [walkDeduct_nonpos _ _ hq] at hi; simp at hi
    · rw [walkDeduct_cons_pos b rest q hq] at hi ⊢
      cases i with
      | zero =>
        -- the tail of the affected list is nonempty, so the walk continued:
        -- the outstanding quantity after this batch is still positive
        have htail : (walkDeduct rest (q - min b.qty_remaining q)).1 ≠ [] := by
          intro hnil
          simp [hnil] at hi
        have hpos : 0 < q - min b.qty_remaining q := walk_rows_pos _ _ htail
        have hlt : min b.qty_remaining q < q := by linarith
        have hmin : min b.qty_remaining q = b.qty_remaining := by
          rcases min_cases b.qty_remaining q with ⟨h1, _⟩ | ⟨h1, h2⟩
          · exact h1
          · rw [h1] at hlt; exact absurd hlt (lt_irrefl q)
        constructor
        · simp [List.getD, hmin]
        · simp [List.getD, hmin]
      | succ j =>
        simp only [List.getD_cons_succ]
        exact ih _ j (by simpa using hi)

/-! ## Lemmas about applying the UPDATEs -/

theorem applyRow_nil (b : Batch) : applyRow [] b = b := rfl

theorem applyRow_cons (r : AffectedRow) (rows : List AffectedRow) (b : Batch) :
    applyRow (r :: rows) b =
      if r.batch_id == b.batch_id then
        { b with qty_remaining := r.qty_remaining, status := r.status }
      else applyRow rows b := by
  by_cases h : (r.batch_id == b.batch_id) = true
  · simp [applyRow, List.find?_cons_of_pos _ h, h]
  · simp only [applyRow, List.find?_cons_of_neg _ h]
    simp [h]

theorem applyRow_not_mem (rows : List AffectedRow) (b : Batch)
    (h : ∀ r ∈ rows, r.batch_id ≠ b.batch_id) : applyRow rows b = b := by
  have : rows.find? (fun r => r.batch_id == b.batch_id) = none := by
    rw [List.find?_eq_none]
    intro r hr
    simpa using h r hr
  simp [applyRow, this]

/-- The UPDATE only touches `qty_remaining` and `status`. -/
theorem applyRow_fields (rows : List AffectedRow) (b : Batch) :
    (applyRow rows b).batch_id = b.batch_id ∧
    (applyRow rows b).restaurant_id = b.restaurant_id ∧
    (applyRow rows b).ingredient_id = b.ingredient_id ∧
    (applyRow rows b).qty_received = b.qty_received ∧
    (applyRow rows b).received_date = b.received_date ∧
    (applyRow rows b).expiration_date = b.expiration_date := by
  unfold applyRow
  cases rows.find? (fun r => r.batch_id == b.batch_id) <;> simp

/-! ## Lemmas about the FIFO selection -/

theorem selectFifo_perm (ledger : List Batch) (rid iid : Nat) :
    (selectFifo ledger rid iid).Perm (ledger.filter (activeKey rid iid)) :=
  List.perm_insertionSort fifoR _

theorem selectFifo_sorted (ledger : List Batch) (rid iid : Nat) :
    List.Sorted fifoR (selectFifo ledger rid iid) :=
  List.sorted_insertionSort fifoR _

theorem selectFifo_mem (ledger : List Batch) (rid iid : Nat) (b : Batch) :
    b ∈ selectFifo ledger rid iid ↔ b ∈ ledger ∧ activeKey rid iid b = true := by
  rw [(selectFifo_perm ledger rid iid).mem_iff]
  exact List.mem_filter

theorem selectFifo_ids_nodup (ledger : List Batch) (rid iid : Nat)
    (h : (ledger.map (·.batch_id)).Nodup) :
    ((selectFifo ledger rid iid).map (·.batch_id)).Nodup := by
  have hperm : ((selectFifo ledger rid iid).map (·.batch_id)).Perm
      ((ledger.filter (activeKey rid iid)).map (·.batch_id)) :=
    (selectFifo_perm ledger rid iid).map _
  rw [hperm.nodup_iff]
  exact ((List.filter_sublist ledger).map _).nodup h

theorem walk_rows_ids_nodup (bs : List Batch) (q : ℚ)
    (h : (bs.map (·.batch_id)).Nodup) :
    ((walkDeduct bs q).1.map (·.batch_id)).Nodup := by
  rw [walk_ids_eq bs q, List.map_take]
  exact h.sublist (List.take_sublist _ _)

/-! ## Sum bookkeeping -/

/-- Changing the value of a summand at a single primary key. -/
theorem sum_update (L : List Batch) (hnd : (L.map (·.batch_id)).Nodup)
    (b₀ : Batch) (hmem : b₀ ∈ L) (f g : Batch → ℚ)
    (hagree : ∀ b ∈ L, b.batch_id ≠ b₀.batch_id → f b = g b) :
    (L.map f).sum = (L.map g).sum + f b₀ - g b₀ := by
  induction L with
  | nil => exact absurd hmem (List.not_mem_nil b₀)
  | cons a t ih =>
    simp only [List.map_cons, List.nodup_cons] at hnd
    rcases List.mem_cons.mp hmem with rfl | hb₀t
    · have ht : ∀ b ∈ t, f b = g b := by
        intro b hb
        refine hagree b (List.mem_cons_of_mem _ hb) ?_
        intro hid
        exact hnd.1 (hid ▸ List.mem_map_of_mem (·.batch_id) hb)
      have : t.map f = t.map g := List.map_congr_left ht
      simp only [List.map_cons, List.sum_cons, this]
      ring
    · have hane : a.batch_id ≠ b₀.batch_id := by
        intro hid
        exact hnd.1 (hid ▸ List.mem_map_of_mem (·.batch_id) hb₀t)
      have hfa : f a = g a := hagree a (List.mem_cons_self _ _) hane
      have := ih hnd.2 hb₀t fun b hb hne => hagree b (List.mem_cons_of_mem _ hb) hne
      simp only [List.map_cons, List.sum_cons, hfa, this]
      ring

/-- Applying the affected rows to a table with unique primary keys removes
exactly the recorded deductions from the total remaining quantity. -/
theorem applyRows_rem_sum (rows : List AffectedRow) : ∀ L : List Batch,
    (L.map (·.batch_id)).Nodup →
    (rows.map (·.batch_id)).Nodup →
    (∀ r ∈ rows, ∃ b ∈ L, r.batch_id = b.batch_id ∧
      r.qty_remaining = b.qty_remaining - r.qty_deducted) →
    ((L.map (applyRow rows)).map (·.qty_remaining)).sum =
      (L.map (·.qty_remaining)).sum - sumDed rows := by
  induction rows with
  | nil =>
    intro L _ _ _
    have hm : L.map (applyRow []) = L := by
      have h1 : L.map (applyRow []) = L.map (fun b => b) :=
        List.map_congr_left (fun b _ => applyRow_nil b)
      rw [h1]
      exact List.map_id L
    rw [hm]
    simp [sumDed]
  | cons r rest ih =>
    intro L hL hrows hcorr
    simp only [List.map_cons, List.nodup_cons] at hrows
    obtain ⟨b₀, hb₀, hid₀, hrem₀⟩ := hcorr r (List.mem_cons_self _ _)
    have hrestcorr : ∀ x ∈ rest, ∃ b ∈ L, x.batch_id = b.batch_id ∧
        x.qty_remaining = b.qty_remaining - x.qty_deducted :=
      fun x hx => hcorr x (List.mem_cons_of_mem _ hx)
    have hgoal : ((L.map (applyRow (r :: rest))).map (·.qty_remaining)).sum =
        (L.map (fun b => (applyRow (r :: rest) b).qty_remaining)).sum := by
      rw [List.map_map]; rfl
    rw [hgoal]
    have hagree : ∀ b ∈ L, b.batch_id ≠ b₀.batch_id →
        (fun b => (applyRow (r :: rest) b).qty_remaining) b =
          (fun b => (applyRow rest b).qty_remaining) b := by
      intro b _ hne
      simp only [applyRow_cons]
      have hfalse : (r.batch_id == b.batch_id) = false := by
        simp only [beq_eq_false_iff_ne, ne_eq, hid₀]
        intro hc
        exact hne (by rw [← hc])
      rw [hfalse]
      simp
    have hstep := sum_update L hL b₀ hb₀
      (fun b => (applyRow (r :: rest) b).qty_remaining)
      (fun b => (applyRow rest b).qty_remaining) hagree
    rw [hstep]
    have hfb₀ : (applyRow (r :: rest) b₀).qty_remaining = r.qty_remaining := by
      rw [applyRow_cons]
      have htrue : (r.batch_id == b₀.batch_id) = true := by simp [hid₀]
      rw [htrue]
      simp
    have hgb₀ : (applyRow rest b₀).qty_remaining = b₀.qty_remaining := by
      rw [applyRow_not_mem]
      intro x hx hxid
      exact hrows.1 (by rw [hid₀, ← hxid]; exact List.mem_map_of_mem (·.batch_id) hx)
    have hrec := ih L hL hrows.2 hrestcorr
    have hrec' : (L.map (fun b => (applyRow rest b).qty_remaining)).sum =
        (L.map (·.qty_remaining)).sum - sumDed rest := by
      rw [← hrec, List.map_map]; rfl
    simp only at hfb₀ hgb₀ ⊢
    rw [hrec', hfb₀, hgb₀, hrem₀]
    simp only [sumDed, List.map_cons, List.sum_cons]
    ring

/-! ## fifoDeduct-level lemmas -/

theorem keyMatch_of_activeKey (rid iid : Nat) (b : Batch)
    (h : activeKey rid iid b = true) : keyMatch rid iid b = true := by
  simp only [activeKey, Bool.and_eq_true] at h
  simp [keyMatch, h.1.1, h.1.2]

theorem keyMatch_applyRow (rows : List AffectedRow) (rid iid : Nat) (b : Batch) :
    keyMatch rid iid (applyRow rows b) = keyMatch rid iid b := by
  obtain ⟨_, h2, h3, _⟩ := applyRow_fields rows b
  simp [keyMatch, h2, h3]

/-- A sum over a filtered mapped list is unchanged when the map preserves
the predicate everywhere and the summand on the selected elements. -/
theorem sum_filter_map_eq (L : List Batch) (f : Batch → Batch) (g : Batch → ℚ)
    (p : Batch → Bool) (hp : ∀ b ∈ L, p (f b) = p b)
    (hg : ∀ b ∈ L, p b = true → g (f b) = g b) :
    (((L.map f).filter p).map g).sum = ((L.filter p).map g).sum := by
  rw [List.filter_map]
  have h1 : L.filter (p ∘ f) = L.filter p := List.filter_congr hp
  rw [h1, List.map_map]
  congr 1
  apply List.map_congr_left
  intro b hb
  have := List.mem_filter.mp hb
  exact hg b this.1 this.2

theorem applyRows_filter (ledger : List Batch) (rows : List AffectedRow)
    (rid iid : Nat) :
    (applyRows ledger rows).filter (keyMatch rid iid) =
      (ledger.filter (keyMatch rid iid)).map (applyRow rows) := by
  unfold applyRows
  rw [List.filter_map]
  congr 1
  apply List.filter_congr
  intro b _
  exact keyMatch_applyRow rows rid iid b

theorem applyRows_ids (ledger : List Batch) (rows : List AffectedRow) :
    (applyRows ledger rows).map (·.batch_id) = ledger.map (·.batch_id) := by
  unfold applyRows
  rw [List.map_map]
  apply List.map_congr_left
  intro b _
  exact (applyRow_fields rows b).1

/-- Every affected row of a `fifo_deduct` call has a unique source batch in
the table, active for the call's key. -/
theorem fifo_sources (ledger : List Batch) (rid iid : Nat) (q : ℚ) :
    ∀ r ∈ (walkDeduct (selectFifo ledger rid iid) q).1,
    ∃ b ∈ ledger, activeKey rid iid b = true ∧ r.batch_id = b.batch_id ∧
      r.qty_deducted ≤ b.qty_remaining ∧
      r.qty_remaining = b.qty_remaining - r.qty_deducted ∧
      (0 ≤ b.qty_remaining → 0 ≤ r.qty_deducted) := by
  intro r hr
  obtain ⟨b, hbsel, hprops⟩ := walk_sources _ q r hr
  obtain ⟨hbledger, hbactive⟩ := (selectFifo_mem ledger rid iid b).mp hbsel
  exact ⟨b, hbledger, hbactive, hprops⟩

/-- With a nonnegative request, the returned `total_deducted` is exactly
the sum of the per-batch deductions. -/
theorem fifo_total_eq_sumDed (ledger : List Batch) (rid iid : Nat) (q : ℚ)
    (hq : 0 ≤ q) :
    (fifoDeduct ledger rid iid q).1.total_deducted =
      sumDed (fifoDeduct ledger rid iid q).1.affected_batches := by
  unfold fifoDeduct
  simp only
  have h1 := walk_rem_eq (selectFifo ledger rid iid) q
  have h2 := walk_rem_nonneg (selectFifo ledger rid iid) q hq
  rw [qmax_eq, max_eq_left h2, h1]
  ring

/-- Consuming removes exactly `total_deducted` from the key's remaining
stock. -/
theorem fifoDeduct_sum_key (ledger : List Batch) (rid iid : Nat) (q : ℚ)
    (hnd : (ledger.map (·.batch_id)).Nodup) (hq : 0 ≤ q) :
    sumRemaining (fifoDeduct ledger rid iid q).2 rid iid =
      sumRemaining ledger rid iid -
        (fifoDeduct ledger rid iid q).1.total_deducted := by
  rw [fifo_total_eq_sumDed ledger rid iid q hq]
  unfold sumRemaining
  show (((applyRows ledger _).filter (keyMatch rid iid)).map (·.qty_remaining)).sum = _
  rw [applyRows_filter]
  apply applyRows_rem_sum
  · exact hnd.sublist ((List.filter_sublist ledger).map _)
  · exact walk_rows_ids_nodup _ q (selectFifo_ids_nodup ledger rid iid hnd)
  · intro r hr
    obtain ⟨b, hbmem, hbactive, hid, _, hrem, _⟩ := fifo_sources ledger rid iid q r hr
    refine ⟨b, List.mem_filter.mpr ⟨hbmem, keyMatch_of_activeKey rid iid b hbactive⟩, hid, hrem⟩

/-- Consuming one key leaves every other key's remaining stock unchanged. -/
theorem fifoDeduct_sum_other (ledger : List Batch) (rid iid : Nat) (q : ℚ)
    (hnd : (ledger.map (·.batch_id)).Nodup) (rid' iid' : Nat)
    (hne : ¬(rid' = rid ∧ iid' = iid)) :
    sumRemaining (fifoDeduct ledger rid iid q).2 rid' iid' =
      sumRemaining ledger rid' iid' := by
  unfold sumRemaining
  show (((applyRows ledger _).filter (keyMatch rid' iid')).map (·.qty_remaining)).sum = _
  unfold applyRows
  apply sum_filter_map_eq
  · intro b _
    exact keyMatch_applyRow _ rid' iid' b
  · intro b hb hkey
    rw [applyRow_not_mem]
    intro r hr hid
    obtain ⟨b₀, hb₀mem, hb₀active, hid₀, _, _, _⟩ := fifo_sources ledger rid iid q r hr
    have hbb₀ : b₀ = b :=
      List.inj_on_of_nodup_map hnd hb₀mem hb (by show b₀.batch_id = b.batch_id; rw [← hid₀, hid])
    subst hbb₀
    simp only [activeKey, Bool.and_eq_true, beq_iff_eq] at hb₀active
    simp only [keyMatch, Bool.and_eq_true, beq_iff_eq] at hkey
    exact hne ⟨by rw [← hkey.1, hb₀active.1.1], by rw [← hkey.2, hb₀active.1.2]⟩

/-- Consuming never changes any key's total received quantity. -/
theorem fifoDeduct_sum_recv (ledger : List Batch) (rows : List AffectedRow)
    (rid' iid' : Nat) :
    sumReceived (applyRows ledger rows) rid' iid' = sumReceived ledger rid' iid' := by
  unfold sumReceived applyRows
  apply sum_filter_map_eq
  · intro b _
    exact keyMatch_applyRow rows rid' iid' b
  · intro b _ _
    exact (applyRow_fields rows b).2.2.2.1

theorem fifoDeduct_snd (ledger : List Batch) (rid iid : Nat) (q : ℚ) :
    (fifoDeduct ledger rid iid q).2 =
      applyRows ledger (walkDeduct (selectFifo ledger rid iid) q).1 := rfl

theorem fifoDeduct_rows (ledger : List Batch) (rid iid : Nat) (q : ℚ) :
    (fifoDeduct ledger rid iid q).1.affected_batches =
      (walkDeduct (selectFifo ledger rid iid) q).1 := rfl

theorem applyRow_of_find_none (rows : List AffectedRow) (b : Batch)
    (hf : rows.find? (fun r => r.batch_id == b.batch_id) = none) :
    applyRow rows b = b := by
  unfold applyRow
  rw [hf]

theorem applyRow_of_find_some (rows : List AffectedRow) (b : Batch) (r : AffectedRow)
    (hf : rows.find? (fun r => r.batch_id == b.batch_id) = some r) :
    applyRow rows b = { b with qty_remaining := r.qty_remaining, status := r.status } := by
  unfold applyRow
  rw [hf]

/-! ## Expiry sweep lemmas -/

/-- `mark_expired` never touches quantities, dates or identifiers. -/
theorem sweepOne_fields (rid today : Nat) (b : Batch) :
    (sweepOne rid today b).batch_id = b.batch_id ∧
    (sweepOne rid today b).restaurant_id = b.restaurant_id ∧
    (sweepOne rid today b).ingredient_id = b.ingredient_id ∧
    (sweepOne rid today b).qty_received = b.qty_received ∧
    (sweepOne rid today b).qty_remaining = b.qty_remaining ∧
    (sweepOne rid today b).received_date = b.received_date ∧
    (sweepOne rid today b).expiration_date = b.expiration_date := by
  unfold sweepOne
  by_cases h : (b.restaurant_id == rid && b.status == BatchStatus.active
      && expiredBefore b.expiration_date today) = true <;> simp [h]

/-- The status after a sweep, as a function of the sweep condition. -/
theorem sweepOne_status (rid today : Nat) (b : Batch) :
    (sweepOne rid today b).status =
      if b.restaurant_id == rid && b.status == BatchStatus.active
          && expiredBefore b.expiration_date today then BatchStatus.expired
      else b.status := by
  unfold sweepOne
  by_cases h : (b.restaurant_id == rid && b.status == BatchStatus.active
      && expiredBefore b.expiration_date today) = true <;> simp [h]

theorem keyMatch_sweepOne (rid today rid' iid' : Nat) (b : Batch) :
    keyMatch rid' iid' (sweepOne rid today b) = keyMatch rid' iid' b := by
  obtain ⟨_, h2, h3, _⟩ := sweepOne_fields rid today b
  simp [keyMatch, h2, h3]

theorem sweep_ids (ledger : List Batch) (rid today : Nat) :
    (sweepExpired ledger rid today).map (·.batch_id) = ledger.map (·.batch_id) := by
  unfold sweepExpired
  rw [List.map_map]
  apply List.map_congr_left
  intro b _
  exact (sweepOne_fields rid today b).1

/-! ## Trace invariant -/

theorem good_init : GoodSt initSt := by
  refine ⟨?_, ?_, ?_, ?_⟩
  · intro b hb; simp [initSt] at hb
  · simp [initSt]
  · intro b hb; simp [initSt] at hb
  · intro rid iid; simp [initSt, sumRemaining, sumReceived]

theorem sumRemaining_append (L : List Batch) (nb : Batch) (rid iid : Nat) :
    sumRemaining (L ++ [nb]) rid iid =
      sumRemaining L rid iid +
        (if keyMatch rid iid nb then nb.qty_remaining else 0) := by
  unfold sumRemaining
  rw [List.filter_append]
  by_cases h : keyMatch rid iid nb = true <;> simp [h]

theorem sumReceived_append (L : List Batch) (nb : Batch) (rid iid : Nat) :
    sumReceived (L ++ [nb]) rid iid =
      sumReceived L rid iid +
        (if keyMatch rid iid nb then nb.qty_received else 0) := by
  unfold sumReceived
  rw [List.filter_append]
  by_cases h : keyMatch rid iid nb = true <;> simp [h]

/-- Every ledger operation with a valid quantity preserves the invariant. -/
theorem good_step (st : LedgerSt) (op : LedgerOp) (h : GoodSt st)
    (hpos : opPos op) : GoodSt (stepOp st op) := by
  obtain ⟨hbound, hnd, hinv, hsum⟩ := h
  cases op with
  | receive rid iid q rcv expd =>
    refine ⟨?_, ?_, ?_, ?_⟩
    · intro b hb
      rcases List.mem_append.mp hb with hold | hnew
      · exact Nat.lt_succ_of_lt (hbound b hold)
      · rw [List.mem_singleton.mp hnew]
        exact Nat.lt_succ_self _
    · show ((st.ledger ++ [createBatch st.nextId rid iid q rcv expd]).map (·.batch_id)).Nodup
      rw [List.map_append]
      rw [List.nodup_append]
      refine ⟨hnd, List.nodup_singleton _, ?_⟩
      intro x hx hx'
      simp only [List.map_cons, List.map_nil, List.mem_singleton, createBatch] at hx'
      obtain ⟨b, hb, hid⟩ := List.mem_map.mp hx
      rw [hx'] at hid
      exact absurd (hid ▸ hbound b hb) (lt_irrefl _)
    · intro b hb
      rcases List.mem_append.mp hb with hold | hnew
      · exact hinv b hold
      · rw [List.mem_singleton.mp hnew]
        have hq : (0 : ℚ) < q := hpos
        exact ⟨le_of_lt hq, le_refl _⟩
    · intro rid' iid'
      simp only [stepOp]
      rw [sumRemaining_append, sumReceived_append]
      have := hsum rid' iid'
      by_cases hk : keyMatch rid' iid' (createBatch st.nextId rid iid q rcv expd) = true <;>
        (simp [hk, createBatch]; rw [this]; ring)
  | consume rid iid q =>
    have hq : (0 : ℚ) ≤ q := le_of_lt hpos
    refine ⟨?_, ?_, ?_, ?_⟩
    · intro b' hb'
      have hmem : b'.batch_id ∈ ((stepOp st (.consume rid iid q)).ledger.map (·.batch_id)) :=
        List.mem_map_of_mem _ hb'
      have hideq : (stepOp st (.consume rid iid q)).ledger.map (·.batch_id) =
          st.ledger.map (·.batch_id) := by
        show ((fifoDeduct st.ledger rid iid q).2.map (·.batch_id)) = _
        rw [fifoDeduct_snd]
        exact applyRows_ids _ _
      rw [hideq] at hmem
      obtain ⟨b, hb, hid⟩ := List.mem_map.mp hmem
      exact hid ▸ hbound b hb
    · show ((fifoDeduct st.ledger rid iid q).2.map (·.batch_id)).Nodup
      rw [fifoDeduct_snd, applyRows_ids]
      exact hnd
    · intro b' hb'
      rw [show (stepOp st (.consume rid iid q)).ledger = (fifoDeduct st.ledger rid iid q).2 from rfl,
        fifoDeduct_snd] at hb'
      obtain ⟨b, hb, hba⟩ := List.mem_map.mp hb'
      cases hf : (walkDeduct (selectFifo st.ledger rid iid) q).1.find?
          (fun r => r.batch_id == b.batch_id) with
      | none =>
        rw [applyRow_of_find_none _ _ hf] at hba
        exact hba ▸ hinv b hb
      | some r =>
        rw [applyRow_of_find_some _ _ r hf] at hba
        have hrmem : r ∈ (walkDeduct (selectFifo st.ledger rid iid) q).1 :=
          List.mem_of_find?_eq_some hf
        obtain ⟨b₀, hb₀, _, hid₀, hded, hrem, hpos'⟩ :=
          fifo_sources st.ledger rid iid q r hrmem
        have hidr : r.batch_id = b.batch_id := by
          have := List.find?_some hf
          simpa using this
        have hbb₀ : b₀ = b :=
          List.inj_on_of_nodup_map hnd hb₀ hb
            (by show b₀.batch_id = b.batch_id; rw [← hid₀, hidr])
        subst hbb₀
        obtain ⟨hb0, hb1⟩ := hinv b₀ hb₀
        rw [← hba]
        constructor
        · simp only
          rw [hrem]
          linarith
        · simp only
          rw [hrem]
          have hd0 : 0 ≤ r.qty_deducted := hpos' hb0
          linarith
    · intro rid' iid'
      simp only [stepOp]
      by_cases hk : rid' = rid ∧ iid' = iid
      · obtain ⟨rfl, rfl⟩ := hk
        rw [fifoDeduct_sum_key st.ledger rid' iid' q hnd hq]
        rw [fifoDeduct_snd, fifoDeduct_sum_recv]
        rw [if_pos (⟨rfl, rfl⟩ : rid' = rid' ∧ iid' = iid')]
        rw [hsum rid' iid']
        ring
      · rw [fifoDeduct_sum_other st.ledger rid iid q hnd rid' iid' hk]
        rw [fifoDeduct_snd, fifoDeduct_sum_recv]
        rw [if_neg hk]
        exact hsum rid' iid'
  | sweep rid today =>
    refine ⟨?_, ?_, ?_, ?_⟩
    · intro b' hb'
      obtain ⟨b, hb, hba⟩ := List.mem_map.mp hb'
      have := (sweepOne_fields rid today b).1
      rw [hba] at this
      exact this ▸ hbound b hb
    · show ((sweepExpired st.ledger rid today).map (·.batch_id)).Nodup
      rw [sweep_ids]
      exact hnd
    · intro b' hb'
      obtain ⟨b, hb, hba⟩ := List.mem_map.mp hb'
      obtain ⟨_, _, _, h4, h5, _, _⟩ := sweepOne_fields rid today b
      rw [hba] at h4 h5
      rw [h4, h5]
      exact hinv b hb
    · intro rid' iid'
      simp only [stepOp]
      have h1 := sum_filter_map_eq st.ledger (sweepOne rid today)
        (fun b => b.qty_remaining) (keyMatch rid' iid')
        (fun b _ => keyMatch_sweepOne rid today rid' iid' b)
        (fun b _ _ => (sweepOne_fields rid today b).2.2.2.2.1)
      have h2 := sum_filter_map_eq st.ledger (sweepOne rid today)
        (fun b => b.qty_received) (keyMatch rid' iid')
        (fun b _ => keyMatch_sweepOne rid today rid' iid' b)
        (fun b _ _ => (sweepOne_fields rid today b).2.2.2.1)
      unfold sumRemaining sumReceived sweepExpired
      rw [h1, h2]
      exact hsum rid' iid'

theorem good_foldl (ops : List LedgerOp) : ∀ st : LedgerSt, GoodSt st →
    (∀ op ∈ ops, opPos op) → GoodSt (ops.foldl stepOp st) := by
  induction ops with
  | nil => intro st h _; exact h
  | cons op rest ih =>
    intro st h hops
    exact ih (stepOp st op) (good_step st op h (hops op (List.mem_cons_self _ _)))
      fun o ho => hops o (List.mem_cons_of_mem _ ho)

/-- Any run of validated operations lands in an invariant state. -/
theorem good_run (ops : List LedgerOp) (h : ∀ op ∈ ops, opPos op) :
    GoodSt (runOps ops) :=
  good_foldl ops initSt good_init h

theorem applyRows_nil (L : List Batch) : applyRows L [] = L := by
  unfold applyRows
  have h1 : L.map (applyRow []) = L.map (fun b => b) :=
    List.map_congr_left (fun b _ => applyRow_nil b)
  rw [h1]
  exact List.map_id L

/-! ## Claim theorems -/

/-- C1: for every run of positive-quantity `Receive`/`ConsumeFIFO` calls,
the remaining stock of each (restaurant, ingredient) equals the received
total minus the accumulated `total_deducted`, and each call's result
satisfies `total_deducted + shortfall = quantity_requested`. -/
theorem C1_fifo_conservation (ops : List LedgerOp)
    (hops : ∀ op ∈ ops, opPos op) :
    (∀ rid iid, sumRemaining (runOps ops).ledger rid iid =
      sumReceived (runOps ops).ledger rid iid - (runOps ops).deductedTot rid iid) ∧
    (∀ (ledger : List Batch) (rid iid : Nat) (q : ℚ), 0 < q →
      (fifoDeduct ledger rid iid q).1.total_deducted +
        (fifoDeduct ledger rid iid q).1.shortfall = q) := by
  constructor
  · exact (good_run ops hops).2.2.2
  · intro ledger rid iid q _
    unfold fifoDeduct
    simp only
    ring

theorem C1_fifo_conservation_witness :
    (∀ op ∈ ([.receive 0 1 10 0 none, .receive 0 1 5 0 none,
        .consume 0 1 12] : List LedgerOp), opPos op) ∧
    (sumRemaining (runOps [.receive 0 1 10 0 none, .receive 0 1 5 0 none,
        .consume 0 1 12]).ledger 0 1 =
      sumReceived (runOps [.receive 0 1 10 0 none, .receive 0 1 5 0 none,
        .consume 0 1 12]).ledger 0 1 -
      (runOps [.receive 0 1 10 0 none, .receive 0 1 5 0 none,
        .consume 0 1 12]).deductedTot 0 1) ∧
    sumRemaining (runOps [.receive 0 1 10 0 none, .receive 0 1 5 0 none,
        .consume 0 1 12]).ledger 0 1 = 3 ∧
    sumReceived (runOps [.receive 0 1 10 0 none, .receive 0 1 5 0 none,
        .consume 0 1 12]).ledger 0 1 = 15 ∧
    (runOps [.receive 0 1 10 0 none, .receive 0 1 5 0 none,
        .consume 0 1 12]).deductedTot 0 1 = 12 :=
  ⟨by decide, (C1_fifo_conservation _ (by decide)).1 0 1, by decide, by decide, by decide⟩

/-- C4: batches always satisfy `0 ≤ qty_remaining ≤ qty_received` after
every run of validated ledger operations, and every single operation either
leaves a batch's identity intact with a non-increased remaining quantity
and unchanged received quantity, or the batch is freshly created with
`qty_remaining = qty_received`. -/
theorem C4_batch_invariant :
    (∀ ops : List LedgerOp, (∀ op ∈ ops, opPos op) →
      ∀ b ∈ (runOps ops).ledger,
        0 ≤ b.qty_remaining ∧ b.qty_remaining ≤ b.qty_received) ∧
    (∀ (st : LedgerSt) (op : LedgerOp), GoodSt st →
      ∀ b' ∈ (stepOp st op).ledger,
        (∃ b ∈ st.ledger, b.batch_id = b'.batch_id ∧
          b'.qty_remaining ≤ b.qty_remaining ∧ b'.qty_received = b.qty_received) ∨
        b'.qty_remaining = b'.qty_received) := by
  constructor
  · intro ops hops
    exact (good_run ops hops).2.2.1
  · intro st op hst b' hb'
    obtain ⟨hbound, hnd, hinv, hsum⟩ := hst
    cases op with
    | receive rid iid q rcv expd =>
      rcases List.mem_append.mp hb' with hold | hnew
      · exact Or.inl ⟨b', hold, rfl, le_refl _, rfl⟩
      · rw [List.mem_singleton.mp hnew]
        exact Or.inr rfl
    | consume rid iid q =>
      rw [show (stepOp st (.consume rid iid q)).ledger = (fifoDeduct st.ledger rid iid q).2 from rfl,
        fifoDeduct_snd] at hb'
      obtain ⟨b, hb, hba⟩ := List.mem_map.mp hb'
      refine Or.inl ⟨b, hb, ?_, ?_, ?_⟩
      · rw [← hba]
        exact ((applyRow_fields _ b).1).symm ▸ rfl
      · cases hf : (walkDeduct (selectFifo st.ledger rid iid) q).1.find?
            (fun r => r.batch_id == b.batch_id) with
        | none =>
          rw [applyRow_of_find_none _ _ hf] at hba
          rw [← hba]
        | some r =>
          rw [applyRow_of_find_some _ _ r hf] at hba
          have hrmem : r ∈ (walkDeduct (selectFifo st.ledger rid iid) q).1 :=
            List.mem_of_find?_eq_some hf
          obtain ⟨b₀, hb₀, _, hid₀, hded, hrem, hpos'⟩ :=
            fifo_sources st.ledger rid iid q r hrmem
          have hidr : r.batch_id = b.batch_id := by
            have := List.find?_some hf
            simpa using this
          have hbb₀ : b₀ = b :=
            List.inj_on_of_nodup_map hnd hb₀ hb
              (by show b₀.batch_id = b.batch_id; rw [← hid₀, hidr])
          subst hbb₀
          rw [← hba]
          simp only
          rw [hrem]
          have hd0 : 0 ≤ r.qty_deducted := hpos' (hinv b₀ hb₀).1
          linarith
      · rw [← hba]
        exact (applyRow_fields _ b).2.2.2.1
    | sweep rid today =>
      obtain ⟨b, hb, hba⟩ := List.mem_map.mp hb'
      obtain ⟨h1, _, _, h4, h5, _, _⟩ := sweepOne_fields rid today b
      rw [hba] at h1 h4 h5
      exact Or.inl ⟨b, hb, h1.symm, le_of_eq h5, h4⟩

theorem C4_batch_invariant_witness :
    ((∀ op ∈ ([.receive 0 1 10 0 none, .consume 0 1 4] : List LedgerOp), opPos op) ∧
      ∀ b ∈ (runOps [.receive 0 1 10 0 none, .consume 0 1 4]).ledger,
        0 ≤ b.qty_remaining ∧ b.qty_remaining ≤ b.qty_received) ∧
    (∀ b' ∈ (stepOp initSt (.receive 2 3 (7 : ℚ) 0 none)).ledger,
      (∃ b ∈ initSt.ledger, b.batch_id = b'.batch_id ∧
        b'.qty_remaining ≤ b.qty_remaining ∧ b'.qty_received = b.qty_received) ∨
      b'.qty_remaining = b'.qty_received) :=
  ⟨⟨by decide, C4_batch_invariant.1 _ (by decide)⟩,
    C4_batch_invariant.2 initSt (.receive 2 3 (7 : ℚ) 0 none) good_init⟩

/-- C8: the expiry sweep flips exactly the active batches strictly past
their expiration date to `expired`, changes nothing else on any row, leaves
already-expired batches untouched, and is idempotent. -/
theorem C8_sweep_idempotent (ledger : List Batch) (rid today : Nat) :
    sweepExpired (sweepExpired ledger rid today) rid today =
      sweepExpired ledger rid today ∧
    (∀ b : Batch,
      (sweepOne rid today b).qty_remaining = b.qty_remaining ∧
      (sweepOne rid today b).qty_received = b.qty_received ∧
      (sweepOne rid today b).expiration_date = b.expiration_date ∧
      (sweepOne rid today b).status =
        (if b.restaurant_id == rid && b.status == BatchStatus.active
            && expiredBefore b.expiration_date today then BatchStatus.expired
          else b.status) ∧
      (b.status = BatchStatus.expired → sweepOne rid today b = b)) := by
  constructor
  · unfold sweepExpired
    rw [List.map_map]
    apply List.map_congr_left
    intro b _
    show sweepOne rid today (sweepOne rid today b) = sweepOne rid today b
    by_cases hc : (b.restaurant_id == rid && b.status == BatchStatus.active
        && expiredBefore b.expiration_date today) = true
    · have h1 : sweepOne rid today b = { b with status := BatchStatus.expired } := by
        unfold sweepOne
        rw [if_pos hc]
      rw [h1]
      unfold sweepOne
      rw [if_neg]
      simp
    · have h1 : sweepOne rid today b = b := by
        unfold sweepOne
        rw [if_neg hc]
      rw [h1, h1]
  · intro b
    obtain ⟨_, _, _, h4, h5, _, h7⟩ := sweepOne_fields rid today b
    refine ⟨h5, h4, h7, sweepOne_status rid today b, ?_⟩
    intro hexp
    unfold sweepOne
    rw [if_neg]
    simp [hexp]

theorem C8_sweep_idempotent_witness :
    ((⟨1, 0, 7, 5, 5, 1, some 2, BatchStatus.expired⟩ : Batch).status =
        BatchStatus.expired) ∧
    sweepOne 0 9 ⟨1, 0, 7, 5, 5, 1, some 2, BatchStatus.expired⟩ =
      ⟨1, 0, 7, 5, 5, 1, some 2, BatchStatus.expired⟩ :=
  ⟨rfl, ((C8_sweep_idempotent [] 0 9).2 ⟨1, 0, 7, 5, 5, 1, some 2,
      BatchStatus.expired⟩).2.2.2.2 rfl⟩

/-- C2: the FIFO consumption order is deterministic — active batches of the
key sorted by expiration ascending with nulls last, then received date
ascending — and on the spec's three-batch example the consumption order is
the 2024-01-03-expiry batch, the 2024-01-05-expiry batch, then the
null-expiry batch. -/
theorem C2_fifo_order :
    ((fifoDeduct
        [⟨1, 0, 7, 1, 1, 20240101, some 20240105, BatchStatus.active⟩,
         ⟨2, 0, 7, 1, 1, 20240102, none, BatchStatus.active⟩,
         ⟨3, 0, 7, 1, 1, 20240101, some 20240103, BatchStatus.active⟩]
        0 7 3).1.affected_batches.map (·.batch_id) = [3, 1, 2]) ∧
    (∀ (ledger : List Batch) (rid iid : Nat),
      (selectFifo ledger rid iid).Perm (ledger.filter (activeKey rid iid)) ∧
      List.Sorted fifoR (selectFifo ledger rid iid) ∧
      (∀ b : Batch, b ∈ selectFifo ledger rid iid ↔
        b ∈ ledger ∧ b.restaurant_id = rid ∧ b.ingredient_id = iid ∧
          b.status = BatchStatus.active)) := by
  constructor
  · decide
  · intro ledger rid iid
    refine ⟨selectFifo_perm _ _ _, selectFifo_sorted _ _ _, ?_⟩
    intro b
    rw [selectFifo_mem]
    simp only [activeKey, Bool.and_eq_true, beq_iff_eq]
    constructor
    · rintro ⟨hmem, ⟨⟨h1, h2⟩, h3⟩⟩
      exact ⟨hmem, h1, h2, h3⟩
    · rintro ⟨hmem, h1, h2, h3⟩
      exact ⟨hmem, ⟨⟨h1, h2⟩, h3⟩⟩

/-- C10: with a positive request, the affected list follows the FIFO
selection order (identifier-wise it is an initial segment of the selected
batches), each deduction is the minimum of the batch's prior remaining
quantity and the quantity still outstanding, and every affected batch but
possibly the last ends with zero remaining and status `depleted` — so at
most the last one can stay active with positive stock. -/
theorem C10_affected_structure (ledger : List Batch) (rid iid : Nat) (q : ℚ)
    (hq : 0 < q) :
    (fifoDeduct ledger rid iid q).1.affected_batches.length ≤
      (selectFifo ledger rid iid).length ∧
    (∀ i, i < (fifoDeduct ledger rid iid q).1.affected_batches.length →
      (((fifoDeduct ledger rid iid q).1.affected_batches.getD i dRow).batch_id =
        ((selectFifo ledger rid iid).getD i dBatch).batch_id)) ∧
    (∀ i, i < (fifoDeduct ledger rid iid q).1.affected_batches.length →
      (((fifoDeduct ledger rid iid q).1.affected_batches.getD i dRow).qty_deducted =
        min ((selectFifo ledger rid iid).getD i dBatch).qty_remaining
          (q - sumDed ((fifoDeduct ledger rid iid q).1.affected_batches.take i)))) ∧
    (∀ i, i + 1 < (fifoDeduct ledger rid iid q).1.affected_batches.length →
      (((fifoDeduct ledger rid iid q).1.affected_batches.getD i dRow).qty_remaining = 0 ∧
        ((fifoDeduct ledger rid iid q).1.affected_batches.getD i dRow).status =
          BatchStatus.depleted)) := by
  rw [fifoDeduct_rows]
  exact ⟨walk_len_le _ q, fun i hi => walk_getD_id _ q i hi,
    fun i hi => walk_getD_ded _ q i hi, fun i hi => walk_getD_depleted _ q i hi⟩

theorem C10_affected_structure_witness :
    ((0 : ℚ) < 15) ∧
    ((fifoDeduct [⟨1, 1, 7, 10, 10, 1, some 5, BatchStatus.active⟩,
        ⟨2, 1, 7, 3, 3, 2, some 6, BatchStatus.active⟩] 1 7 15).1.affected_batches.length ≤
      (selectFifo [⟨1, 1, 7, 10, 10, 1, some 5, BatchStatus.active⟩,
        ⟨2, 1, 7, 3, 3, 2, some 6, BatchStatus.active⟩] 1 7).length ∧
      (∀ i, i < (fifoDeduct [⟨1, 1, 7, 10, 10, 1, some 5, BatchStatus.active⟩,
          ⟨2, 1, 7, 3, 3, 2, some 6, BatchStatus.active⟩] 1 7 15).1.affected_batches.length →
        (((fifoDeduct [⟨1, 1, 7, 10, 10, 1, some 5, BatchStatus.active⟩,
            ⟨2, 1, 7, 3, 3, 2, some 6, BatchStatus.active⟩] 1 7 15).1.affected_batches.getD i dRow).batch_id =
          ((selectFifo [⟨1, 1, 7, 10, 10, 1, some 5, BatchStatus.active⟩,
            ⟨2, 1, 7, 3, 3, 2, some 6, BatchStatus.active⟩] 1 7).getD i dBatch).batch_id)) ∧
      (∀ i, i < (fifoDeduct [⟨1, 1, 7, 10, 10, 1, some 5, BatchStatus.active⟩,
          ⟨2, 1, 7, 3, 3, 2, some 6, BatchStatus.active⟩] 1 7 15).1.affected_batches.length →
        (((fifoDeduct [⟨1, 1, 7, 10, 10, 1, some 5, BatchStatus.active⟩,
            ⟨2, 1, 7, 3, 3, 2, some 6, BatchStatus.active⟩] 1 7 15).1.affected_batches.getD i dRow).qty_deducted =
          min ((selectFifo [⟨1, 1, 7, 10, 10, 1, some 5, BatchStatus.active⟩,
              ⟨2, 1, 7, 3, 3, 2, some 6, BatchStatus.active⟩] 1 7).getD i dBatch).qty_remaining
            (15 - sumDed ((fifoDeduct [⟨1, 1, 7, 10, 10, 1, some 5, BatchStatus.active⟩,
              ⟨2, 1, 7, 3, 3, 2, some 6, BatchStatus.active⟩] 1 7 15).1.affected_batches.take i)))) ∧
      (∀ i, i + 1 < (fifoDeduct [⟨1, 1, 7, 10, 10, 1, some 5, BatchStatus.active⟩,
          ⟨2, 1, 7, 3, 3, 2, some 6, BatchStatus.active⟩] 1 7 15).1.affected_batches.length →
        (((fifoDeduct [⟨1, 1, 7, 10, 10, 1, some 5, BatchStatus.active⟩,
            ⟨2, 1, 7, 3, 3, 2, some 6, BatchStatus.active⟩] 1 7 15).1.affected_batches.getD i dRow).qty_remaining = 0 ∧
          ((fifoDeduct [⟨1, 1, 7, 10, 10, 1, some 5, BatchStatus.active⟩,
            ⟨2, 1, 7, 3, 3, 2, some 6, BatchStatus.active⟩] 1 7 15).1.affected_batches.getD i dRow).status =
            BatchStatus.depleted))) :=
  ⟨by decide, C10_affected_structure
    [⟨1, 1, 7, 10, 10, 1, some 5, BatchStatus.active⟩,
     ⟨2, 1, 7, 3, 3, 2, some 6, BatchStatus.active⟩] 1 7 15 (by decide)⟩

/-- C7 counterexample: `fifo_deduct` called with quantity 0 does not fail —
it returns a normal result (empty affected list, zero shortfall) and leaves
the table unchanged, so the ledger function itself never raises
`InvalidQuantity`. -/
theorem C7_counterexample :
    (fifoDeduct [⟨1, 1, 7, 10, 10, 1, some 5, BatchStatus.active⟩] 1 7 0).2 =
      [⟨1, 1, 7, 10, 10, 1, some 5, BatchStatus.active⟩] ∧
    (fifoDeduct [⟨1, 1, 7, 10, 10, 1, some 5, BatchStatus.active⟩] 1 7 0).1 =
      ⟨[], 0, 0⟩ := by
  decide

/-- C7 amended: a `ConsumeFIFO` call with non-positive quantity modifies no
batch and deducts nothing (empty affected list, zero shortfall), but does
not itself raise: the `InvalidQuantity` rejection is issued by the
service-layer validation (`log_usage`) before the ledger is reached, also
without side effects. -/
theorem C7_nonpositive (ledger : List Batch) (rid iid : Nat) (q : ℚ)
    (hq : q ≤ 0) :
    ((fifoDeduct ledger rid iid q).2 = ledger ∧
      (fifoDeduct ledger rid iid q).1.affected_batches = [] ∧
      (fifoDeduct ledger rid iid q).1.shortfall = 0) ∧
    (∀ (log : List LogRow) (rid' iid' today : Nat),
      logUsage log rid' iid' today q =
        Except.error "qty_used must be a positive number") := by
  constructor
  · have hw := walkDeduct_nonpos (selectFifo ledger rid iid) q hq
    refine ⟨?_, ?_, ?_⟩
    · rw [fifoDeduct_snd, hw]
      exact applyRows_nil ledger
    · rw [fifoDeduct_rows, hw]
    · show qmax (walkDeduct (selectFifo ledger rid iid) q).2 0 = 0
      rw [hw, qmax_eq]
      exact max_eq_right hq
  · intro log rid' iid' today
    unfold logUsage
    rw [if_pos hq]

/-! ## Daily log lemmas -/

theorem pickLater_none (r : LogRow) : pickLater none r = some r := rfl

theorem pickLater_some (m r : LogRow) :
    pickLater (some m) r = if m.day < r.day then some r else some m := rfl

/-- The running-maximum fold lands on the unique latest row. -/
theorem pickLater_foldl (l : List LogRow) : ∀ (acc : Option LogRow) (r : LogRow),
    (∀ x ∈ l, x ≠ r → x.day < r.day) →
    ((acc = none ∧ r ∈ l) ∨ acc = some r ∨
      (∃ a, acc = some a ∧ a.day < r.day ∧ r ∈ l)) →
    l.foldl pickLater acc = some r := by
  induction l with
  | nil =>
    intro acc r _ hacc
    rcases hacc with ⟨_, hmem⟩ | rfl | ⟨a, _, _, hmem⟩
    · exact absurd hmem (List.not_mem_nil r)
    · rfl
    · exact absurd hmem (List.not_mem_nil r)
  | cons x t ih =>
    intro acc r hdom hacc
    have hdomt : ∀ y ∈ t, y ≠ r → y.day < r.day :=
      fun y hy => hdom y (List.mem_cons_of_mem _ hy)
    rcases hacc with ⟨rfl, hmem⟩ | rfl | ⟨a, rfl, haday, hmem⟩
    · -- accumulator empty, r somewhere in x :: t
      by_cases hx : x = r
      · subst hx
        rw [List.foldl_cons, pickLater_none]
        exact ih (some x) x hdomt (Or.inr (Or.inl rfl))
      · have hxr : x.day < r.day := hdom x (List.mem_cons_self _ _) hx
        have hmem' : r ∈ t := by
          rcases List.mem_cons.mp hmem with h | h
          · exact absurd h.symm hx
          · exact h
        rw [List.foldl_cons, pickLater_none]
        exact ih (some x) r hdomt (Or.inr (Or.inr ⟨x, rfl, hxr, hmem'⟩))
    · -- accumulator already holds r
      by_cases hx : x = r
      · subst hx
        rw [List.foldl_cons, pickLater_some, if_neg (lt_irrefl _)]
        exact ih (some x) x hdomt (Or.inr (Or.inl rfl))
      · have hxr : x.day < r.day := hdom x (List.mem_cons_self _ _) hx
        rw [List.foldl_cons, pickLater_some, if_neg (by omega)]
        exact ih (some r) r hdomt (Or.inr (Or.inl rfl))
    · -- accumulator holds a strictly earlier row, r in x :: t
      by_cases hx : x = r
      · subst hx
        rw [List.foldl_cons, pickLater_some, if_pos haday]
        exact ih (some x) x hdomt (Or.inr (Or.inl rfl))
      · have hxr : x.day < r.day := hdom x (List.mem_cons_self _ _) hx
        have hmem' : r ∈ t := by
          rcases List.mem_cons.mp hmem with h | h
          · exact absurd h.symm hx
          · exact h
        rw [List.foldl_cons, pickLater_some]
        by_cases hax : a.day < x.day
        · rw [if_pos hax]
          exact ih (some x) r hdomt (Or.inr (Or.inr ⟨x, rfl, hxr, hmem'⟩))
        · rw [if_neg hax]
          exact ih (some a) r hdomt (Or.inr (Or.inr ⟨a, rfl, haday, hmem'⟩))

/-- Characterization of the seeding subquery: when the log holds a unique
most-recent prior row for the key, that row is what it returns. -/
theorem latestPrior_eq (log : List LogRow) (rid iid today : Nat) (r : LogRow)
    (hr : r ∈ log) (hkey1 : r.rid = rid) (hkey2 : r.iid = iid)
    (hday : r.day < today)
    (hmax : ∀ x ∈ log, x.rid = rid → x.iid = iid → x.day < today → x ≠ r →
      x.day < r.day) :
    latestPrior log rid iid today = some r := by
  unfold latestPrior
  apply pickLater_foldl
  · intro x hx hne
    have := List.mem_filter.mp hx
    simp only [Bool.and_eq_true, beq_iff_eq, decide_eq_true_eq] at this
    exact hmax x this.1 this.2.1.1 this.2.1.2 this.2.2 hne
  · refine Or.inl ⟨rfl, ?_⟩
    apply List.mem_filter.mpr
    refine ⟨hr, ?_⟩
    simp only [Bool.and_eq_true, beq_iff_eq, decide_eq_true_eq]
    exact ⟨⟨hkey1, hkey2⟩, hday⟩

/-- Inserting today's row makes it findable on a subsequent same-day post. -/
theorem findToday_append (log : List LogRow) (rid iid today : Nat) (row : LogRow)
    (hnone : findToday log rid iid today = none)
    (hkey : logKey rid iid today row = true) :
    findToday (log ++ [row]) rid iid today = some row := by
  unfold findToday at *
  induction log with
  | nil => simp [List.find?, hkey]
  | cons x t ih =>
    rw [List.cons_append]
    cases hx : logKey rid iid today x with
    | true =>
      rw [List.find?_cons_of_pos _ hx] at hnone
      exact absurd hnone (by simp)
    | false =>
      rw [List.find?_cons_of_neg _ (by simp [hx])] at hnone ⊢
      exact ih hnone

theorem C7_nonpositive_witness :
    ((0 : ℚ) ≤ 0) ∧
    ((fifoDeduct [⟨1, 1, 7, 10, 10, 1, some 5, BatchStatus.active⟩] 1 7 0).2 =
        [⟨1, 1, 7, 10, 10, 1, some 5, BatchStatus.active⟩] ∧
      (fifoDeduct [⟨1, 1, 7, 10, 10, 1, some 5, BatchStatus.active⟩] 1 7 0).1.affected_batches = [] ∧
      (fifoDeduct [⟨1, 1, 7, 10, 10, 1, some 5, BatchStatus.active⟩] 1 7 0).1.shortfall = 0) ∧
    logUsage [] 4 9 3 (0 : ℚ) = Except.error "qty_used must be a positive number" :=
  ⟨le_refl 0,
    (C7_nonpositive [⟨1, 1, 7, 10, 10, 1, some 5, BatchStatus.active⟩] 1 7 0 (le_refl 0)).1,
    (C7_nonpositive [⟨1, 1, 7, 10, 10, 1, some 5, BatchStatus.active⟩] 1 7 0 (le_refl 0)).2 [] 4 9 3⟩

/-- C3: usage posting seeds a new day's row from the most recent prior
day's `inventory_end` (0 when none exists), accumulates further same-day
posts into `qty_used` and `inventory_end` with `inventory_start` unchanged
and no clamping, and carries day D's closing balance into day D+1's
`inventory_start`. -/
theorem C3_daily_log_upsert :
    (∀ (log : List LogRow) (rid iid today : Nat) (q1 q2 : ℚ),
      findToday log rid iid today = none →
      (upsertUsage log rid iid today q1).1 =
        ⟨rid, iid, today, priorEnd log rid iid today, q1,
          priorEnd log rid iid today - q1⟩ ∧
      (upsertUsage (upsertUsage log rid iid today q1).2 rid iid today q2).1.inventory_start =
        priorEnd log rid iid today ∧
      (upsertUsage (upsertUsage log rid iid today q1).2 rid iid today q2).1.qty_used =
        q1 + q2 ∧
      (upsertUsage (upsertUsage log rid iid today q1).2 rid iid today q2).1.inventory_end =
        priorEnd log rid iid today - (q1 + q2)) ∧
    (∀ (log : List LogRow) (rid iid today : Nat) (q : ℚ) (r : LogRow),
      findToday log rid iid today = some r →
      (upsertUsage log rid iid today q).1 =
        { r with qty_used := r.qty_used + q, inventory_end := r.inventory_end - q }) ∧
    (∀ (log : List LogRow) (rid iid D : Nat) (r : LogRow) (q : ℚ),
      r ∈ log → r.rid = rid → r.iid = iid → r.day = D →
      (∀ x ∈ log, x.rid = rid → x.iid = iid → x.day ≤ D) →
      (∀ x ∈ log, x.rid = rid → x.iid = iid → x.day = D → x = r) →
      (upsertUsage log rid iid (D + 1) q).1.inventory_start = r.inventory_end) := by
  refine ⟨?_, ?_, ?_⟩
  · intro log rid iid today q1 q2 hnone
    have h1 : upsertUsage log rid iid today q1 =
        (⟨rid, iid, today, priorEnd log rid iid today, q1,
            priorEnd log rid iid today - q1⟩,
          log ++ [⟨rid, iid, today, priorEnd log rid iid today, q1,
            priorEnd log rid iid today - q1⟩]) := by
      unfold upsertUsage
      rw [hnone]
    have hfind : findToday (log ++ [⟨rid, iid, today, priorEnd log rid iid today, q1,
        priorEnd log rid iid today - q1⟩]) rid iid today =
        some ⟨rid, iid, today, priorEnd log rid iid today, q1,
          priorEnd log rid iid today - q1⟩ :=
      findToday_append log rid iid today _ hnone (by simp [logKey])
    have h2 : (upsertUsage (upsertUsage log rid iid today q1).2 rid iid today q2).1 =
        { rid := rid, iid := iid, day := today,
          inventory_start := priorEnd log rid iid today,
          qty_used := q1 + q2,
          inventory_end := priorEnd log rid iid today - q1 - q2 } := by
      rw [h1]
      show (upsertUsage (log ++ [⟨rid, iid, today, priorEnd log rid iid today, q1,
          priorEnd log rid iid today - q1⟩]) rid iid today q2).1 = _
      unfold upsertUsage
      rw [hfind]
    refine ⟨by rw [h1], ?_, ?_, ?_⟩
    · rw [h2]
    · rw [h2]
    · rw [h2]
      show priorEnd log rid iid today - q1 - q2 = _
      ring
  · intro log rid iid today q r hfound
    unfold upsertUsage
    rw [hfound]
  · intro log rid iid D r q hr hk1 hk2 hday hle huniq
    have hnone : findToday log rid iid (D + 1) = none := by
      unfold findToday
      rw [List.find?_eq_none]
      intro x hx hkey
      simp only [logKey, Bool.and_eq_true, beq_iff_eq] at hkey
      have := hle x hx hkey.1.1 hkey.1.2
      omega
    have hlp : latestPrior log rid iid (D + 1) = some r := by
      apply latestPrior_eq log rid iid (D + 1) r hr hk1 hk2 (by omega)
      intro x hx hx1 hx2 _ hne
      have hxle := hle x hx hx1 hx2
      rcases Nat.lt_or_ge x.day D with hlt | hge
      · omega
      · have hxD : x.day = D := by omega
        exact absurd (huniq x hx hx1 hx2 hxD) hne
    unfold upsertUsage
    rw [hnone]
    show priorEnd log rid iid (D + 1) = r.inventory_end
    unfold priorEnd
    rw [hlp]

theorem C3_daily_log_upsert_witness :
    (findToday ([] : List LogRow) 0 0 1 = none) ∧
    ((upsertUsage ([] : List LogRow) 0 0 1 5).1 =
        ⟨0, 0, 1, priorEnd ([] : List LogRow) 0 0 1, 5,
          priorEnd ([] : List LogRow) 0 0 1 - 5⟩ ∧
      priorEnd ([] : List LogRow) 0 0 1 = 0) ∧
    ((upsertUsage (upsertUsage ([] : List LogRow) 0 0 1 5).2 0 0 1 3).1.qty_used = 8 ∧
      (upsertUsage (upsertUsage ([] : List LogRow) 0 0 1 5).2 0 0 1 3).1.inventory_end = -8) ∧
    ((⟨0, 0, 0, 10, 2, 42⟩ : LogRow) ∈ [(⟨0, 0, 0, 10, 2, 42⟩ : LogRow)] ∧
      (upsertUsage [(⟨0, 0, 0, 10, 2, 42⟩ : LogRow)] 0 0 (0 + 1) 5).1.inventory_start =
        (⟨0, 0, 0, 10, 2, 42⟩ : LogRow).inventory_end ∧
      (⟨0, 0, 0, 10, 2, 42⟩ : LogRow).inventory_end = 42) :=
  ⟨rfl,
    ⟨(C3_daily_log_upsert.1 [] 0 0 1 5 3 rfl).1, by decide⟩,
    ⟨by decide, by decide⟩,
    ⟨by decide,
      C3_daily_log_upsert.2.2 [(⟨0, 0, 0, 10, 2, 42⟩ : LogRow)] 0 0 0
        (⟨0, 0, 0, 10, 2, 42⟩ : LogRow) 5 (by decide) rfl rfl rfl
        (by decide) (by decide),
      by decide⟩⟩

/-! ## Decision-engine lemmas -/

theorem severity_le_three (p : Priority) : severity p ≤ 3 := by
  cases p <;> decide

theorem optLt_mono {d d' : Option ℚ} (h : optLe d' d) (c : ℚ)
    (hlt : optLt d c = true) : optLt d' c = true := by
  cases d with
  | none => simp [optLt] at hlt
  | some x =>
    cases d' with
    | none => exact absurd h (by simp [optLe])
    | some y =>
      simp only [optLt, decide_eq_true_eq] at hlt ⊢
      have hyx : y ≤ x := h
      linarith

theorem orLt_mono {d d' : Option ℚ} (h : optLe d' d) (c : ℚ) (b : Bool)
    (hcc : (optLt d c || b) = true) : (optLt d' c || b) = true := by
  have hcc' : optLt d c = true ∨ b = true := by simpa using hcc
  rcases hcc' with h1 | h1
  · simp [optLt_mono h c h1]
  · simp [h1]

/-- With `restock_needed = true` the LOW guard never fires and the MEDIUM
fallback always does, so the priority chain collapses to a two-threshold
step function. -/
theorem determinePriority_true (s : Option ℚ) (sp : ℚ) (cat : IngredientCategory) :
    determinePriority s sp true cat =
      if (decide (sp < 1) || optLt s 1) = true then Priority.CRITICAL
      else
        match cat with
        | .PRODUCE | .PROTEIN =>
          if (optLt s 3 || decide (sp < 2)) = true then Priority.HIGH
          else Priority.MEDIUM
        | .DAIRY =>
          if (optLt s 5 || decide (sp < 3)) = true then Priority.HIGH
          else Priority.MEDIUM
        | .NON_PERISHABLE | .ALCOHOL_DRY =>
          if optLt s 7 = true then Priority.HIGH
          else Priority.MEDIUM := by
  unfold determinePriority
  by_cases hc : (decide (sp < 1) || optLt s 1) = true
  · simp [hc]
  · simp only [Bool.not_true, Bool.false_and, hc, if_false, Bool.false_eq_true]
    cases cat <;> simp [Bool.or_true]

theorem severity_if_le (c c' : Bool) (himp : c = true → c' = true) :
    severity (if c = true then Priority.HIGH else Priority.MEDIUM) ≤
      severity (if c' = true then Priority.HIGH else Priority.MEDIUM) := by
  cases c' with
  | true =>
    rw [if_pos rfl]
    cases c with
    | true => rw [if_pos rfl]
    | false =>
      rw [if_neg (by simp)]
      decide
  | false =>
    have hcf : c = false := by
      cases c with
      | true => exact absurd (himp rfl) (by simp)
      | false => rfl
    subst hcf
    exact le_refl _

theorem determinePriority_low_of (s : Option ℚ) (sp : ℚ) (cat : IngredientCategory)
    (hsp : 3 < sp) : determinePriority s sp false cat = Priority.LOW := by
  unfold determinePriority
  simp [hsp]

theorem determinePriority_crit_spoil (s : Option ℚ) (sp : ℚ) (r : Bool)
    (cat : IngredientCategory) (hsp : sp < 1) :
    determinePriority s sp r cat = Priority.CRITICAL := by
  unfold determinePriority
  have h1 : decide (3 < sp) = false := by
    simp only [decide_eq_false_iff_not, not_lt]
    linarith
  have h2 : decide (sp < 1) = true := by simp [hsp]
  simp [h1, h2]

theorem determinePriority_crit_stockout (s : Option ℚ) (sp : ℚ)
    (cat : IngredientCategory) (hlt : optLt s 1 = true) :
    determinePriority s sp true cat = Priority.CRITICAL := by
  unfold determinePriority
  simp [hlt]

theorem mkRec_spoilage (cur avg pred : ℚ) (cat : IngredientCategory) :
    (mkRecommendation cur avg pred cat).days_until_spoilage =
      (categoryMetadata cat).shelf_life_days -
        (categoryMetadata cat).waste_buffer_days := rfl

theorem mkRec_stockout (cur avg pred : ℚ) (cat : IngredientCategory) :
    (mkRecommendation cur avg pred cat).days_until_stockout =
      calcDaysUntilStockout pred avg := rfl

theorem mkRec_priority (cur avg pred : ℚ) (cat : IngredientCategory) :
    (mkRecommendation cur avg pred cat).priority =
      determinePriority (calcDaysUntilStockout pred avg)
        ((categoryMetadata cat).shelf_life_days -
          (categoryMetadata cat).waste_buffer_days)
        (mkRecommendation cur avg pred cat).restock_needed cat := rfl

theorem mkRec_restock (cur avg pred : ℚ) (cat : IngredientCategory) :
    (mkRecommendation cur avg pred cat).restock_needed =
      (decide (pred <
          (if 0 < avg then
            avg * ((categoryMetadata cat).delivery_frequency_days +
              (categoryMetadata cat).order_lead_time_days +
              (categoryMetadata cat).waste_buffer_days)
          else cur * (3 / 10))) ||
        decide ((categoryMetadata cat).shelf_life_days -
            (categoryMetadata cat).waste_buffer_days <
          (categoryMetadata cat).waste_buffer_days + 1)) := rfl

/-- C5: every recommendation the engine builds is CRITICAL when its days
until spoilage or days until stockout drop below one, and LOW when no
restock is needed and spoilage is more than three days away. -/
theorem C5_priority_thresholds (cur avg pred : ℚ) (cat : IngredientCategory) :
    ((mkRecommendation cur avg pred cat).days_until_spoilage < 1 ∨
        optLt (mkRecommendation cur avg pred cat).days_until_stockout 1 = true →
      (mkRecommendation cur avg pred cat).priority = Priority.CRITICAL) ∧
    ((mkRecommendation cur avg pred cat).restock_needed = false ∧
        3 < (mkRecommendation cur avg pred cat).days_until_spoilage →
      (mkRecommendation cur avg pred cat).priority = Priority.LOW) := by
  constructor
  · intro hcrit
    rw [mkRec_priority]
    rcases hcrit with hsp | hso
    · rw [mkRec_spoilage] at hsp
      exact determinePriority_crit_spoil _ _ _ cat hsp
    · rw [mkRec_stockout] at hso
      have havg : ¬avg ≤ 0 := by
        intro ha
        have hnone : calcDaysUntilStockout pred avg = none := by
          unfold calcDaysUntilStockout
          rw [if_pos ha]
        rw [hnone] at hso
        simp [optLt] at hso
      have havg' : 0 < avg := lt_of_not_le havg
      have hsome : calcDaysUntilStockout pred avg = some (qmax 0 (pred / avg)) := by
        unfold calcDaysUntilStockout
        rw [if_neg havg]
      have hso' : qmax 0 (pred / avg) < 1 := by
        rw [hsome] at hso
        simpa [optLt] using hso
      have hpa : pred / avg < 1 := by
        rw [qmax_eq] at hso'
        exact lt_of_le_of_lt (le_max_right _ _) hso'
      have hpred : pred < avg := (div_lt_one havg').mp hpa
      have hmin : (1 : ℚ) ≤ (categoryMetadata cat).delivery_frequency_days +
          (categoryMetadata cat).order_lead_time_days +
          (categoryMetadata cat).waste_buffer_days := by
        cases cat <;> norm_num [categoryMetadata]
      have hreorder : pred <
          (if 0 < avg then
            avg * ((categoryMetadata cat).delivery_frequency_days +
              (categoryMetadata cat).order_lead_time_days +
              (categoryMetadata cat).waste_buffer_days)
          else cur * (3 / 10)) := by
        rw [if_pos havg']
        have h1 : avg * 1 ≤ avg * ((categoryMetadata cat).delivery_frequency_days +
            (categoryMetadata cat).order_lead_time_days +
            (categoryMetadata cat).waste_buffer_days) :=
          mul_le_mul_of_nonneg_left hmin (le_of_lt havg')
        rw [mul_one] at h1
        linarith
      have hrn : (mkRecommendation cur avg pred cat).restock_needed = true := by
        rw [mkRec_restock]
        simp [hreorder]
      rw [hrn]
      exact determinePriority_crit_stockout _ _ cat hso
  · rintro ⟨hrn, hsp⟩
    rw [mkRec_priority, hrn]
    rw [mkRec_spoilage] at hsp
    exact determinePriority_low_of _ _ cat hsp

theorem C5_priority_thresholds_witness :
    ((mkRecommendation 0 1 (1 / 2) IngredientCategory.PRODUCE).days_until_spoilage < 1 ∨
      optLt (mkRecommendation 0 1 (1 / 2) IngredientCategory.PRODUCE).days_until_stockout 1 =
        true) ∧
    (mkRecommendation 0 1 (1 / 2) IngredientCategory.PRODUCE).priority =
      Priority.CRITICAL ∧
    ((mkRecommendation 0 1 20 IngredientCategory.NON_PERISHABLE).restock_needed = false ∧
      3 < (mkRecommendation 0 1 20 IngredientCategory.NON_PERISHABLE).days_until_spoilage) ∧
    (mkRecommendation 0 1 20 IngredientCategory.NON_PERISHABLE).priority = Priority.LOW :=
  ⟨by decide,
    (C5_priority_thresholds 0 1 (1 / 2) IngredientCategory.PRODUCE).1 (by decide),
    by decide,
    (C5_priority_thresholds 0 1 20 IngredientCategory.NON_PERISHABLE).2 (by decide)⟩

/-- C9: for a fixed category, fixed days-until-spoilage and
`restock_needed = true`, lowering days-until-stockout (with the infinite
horizon `none` counted as largest) never lowers the priority severity. -/
theorem C9_priority_monotone (cat : IngredientCategory) (sp : ℚ) (d d' : Option ℚ)
    (h : optLe d' d) :
    severity (determinePriority d sp true cat) ≤
      severity (determinePriority d' sp true cat) := by
  rw [determinePriority_true, determinePriority_true]
  by_cases hc' : (decide (sp < 1) || optLt d' 1) = true
  · rw [if_pos hc']
    exact severity_le_three _
  · have hc : ¬(decide (sp < 1) || optLt d 1) = true := by
      intro hcc
      have hcc' : decide (sp < 1) = true ∨ optLt d 1 = true := by simpa using hcc
      rcases hcc' with h1 | h1
      · exact hc' (by simp [h1])
      · exact hc' (by simp [optLt_mono h 1 h1])
    rw [if_neg hc, if_neg hc']
    cases cat with
    | PRODUCE => exact severity_if_le _ _ (orLt_mono h 3 _)
    | PROTEIN => exact severity_if_le _ _ (orLt_mono h 3 _)
    | DAIRY => exact severity_if_le _ _ (orLt_mono h 5 _)
    | NON_PERISHABLE => exact severity_if_le _ _ (fun hx => optLt_mono h 7 hx)
    | ALCOHOL_DRY => exact severity_if_le _ _ (fun hx => optLt_mono h 7 hx)

theorem C9_priority_monotone_witness :
    optLe (some 10) none ∧
    severity (determinePriority none 5 true IngredientCategory.DAIRY) ≤
      severity (determinePriority (some 10) 5 true IngredientCategory.DAIRY) :=
  ⟨by decide, C9_priority_monotone IngredientCategory.DAIRY 5 none (some 10) (by decide)⟩

/-- C6 counterexample: "Cocktail Sauce" matches both an alcohol/dry keyword
("cocktail") and a non-perishable keyword ("sauce"); the code checks the
alcohol/dry set before the non-perishable set and classifies it
ALCOHOL_DRY, while the claimed order (non-perishable before alcohol/dry)
would classify it NON_PERISHABLE. -/
theorem C6_order_counterexample :
    classifyIngredient "Cocktail Sauce" = IngredientCategory.ALCOHOL_DRY ∧
    classifyByOrder claimKeywordOrder (normalizeName "Cocktail Sauce") =
      IngredientCategory.NON_PERISHABLE ∧
    IngredientCategory.ALCOHOL_DRY ≠ IngredientCategory.NON_PERISHABLE :=
  ⟨by decide, by decide, by decide⟩

/-- C6 amended: classification matches the lowercased name against the
keyword sets in the order produce, protein, dairy, alcohol/dry-goods,
non-perishable — first match wins, unmatched names default to
non-perishable. -/
theorem C6_classify_order :
    (∀ name : String, classifyIngredient name =
      classifyByOrder codeKeywordOrder (normalizeName name)) ∧
    classifyIngredient "tomato beef" = IngredientCategory.PRODUCE ∧
    classifyIngredient "goat wine" = IngredientCategory.DAIRY ∧
    classifyIngredient "mystery item" = IngredientCategory.NON_PERISHABLE := by
  refine ⟨fun name => ?_, by decide, by decide, by decide⟩
  rfl
